import Mathlib

/-!
Verification development for the gojs host-script bridge (runner-mei/gojs).

Shallow embedding of:
  * the name mapper (FieldName / MethodName, src/unnamed/part_000),
  * the bridge / exporter (Runtime.ToBindObject wrapper logic, src/unnamed/part_000),
  * the context-aware runtime (RunString / RunScript / RunProgram and the
    current-context cell, src/main.go),
  * compatibility-mode validation and NewWith (src/runtime_options.go, src/main.go),
  * the shared-object cache and the SharedArray constructor
    (src/unnamed/part_004; the cache itself and the init-env accessors live in
    a part of the repository that is not in src/ and are modelled from the spec).

Machine integers do not matter for these claims; Go strings are modelled as
Lean Strings, Go slices/maps as Lists, reflect values as an explicit inductive.
-/

set_option autoImplicit false

namespace Gojs

/-- Tags for the Go types the bridge inspects by reflection.  These mirror the
package-level reflect.Type variables of src/unnamed/part_000: `ctxT`
(context.Context), `errorT` (error), `jsValT` (goja.Value), `fnCallT`
(goja.FunctionCall), plus ordinary data types used by exported methods. -/
inductive GoType where
  | ctxT
  | errorT
  | jsValT
  | fnCallT
  | intT
  | stringT
  | boolT
  | sliceT (elem : GoType)
deriving DecidableEq, Repr

/-- reflect.Type.Elem() for slice types (used for the variadic element type). -/
def GoType.elemType : GoType → GoType
  | GoType.sliceT e => e
  | t => t

/-- Script-side (goja) values as far as the bridge observes them: the bridge
only ever tests for `undefined`; other values are opaque payloads. -/
inductive JSValue where
  | undefined
  | boolean (b : Bool)
  | num (n : Int)
  | str (s : String)
deriving DecidableEq, Repr

/-- Keys stored in a context.Context.  `runtimeKey` models the private
package-level `ctxKeyRuntime` pointer of src/main.go; `initEnvKey` models the
(not-in-src) init-environment key used by gojs.WithInitEnv / gojs.GetInitEnv;
`userKey` models any caller-supplied key. -/
inductive CtxKey where
  | runtimeKey
  | initEnvKey
  | userKey (s : String)
deriving DecidableEq, Repr

/-- Values stored in a context.Context: a *Runtime (by identity), a reference
to an init environment (by identity), or ordinary string data. -/
inductive CtxVal where
  | rt (id : Nat)
  | initEnvRef (id : Nat)
  | str (s : String)
deriving DecidableEq, Repr

/-- A context.Context as a stack of key/value associations, innermost first.
`context.WithValue` conses; `Context.Value` walks outward to the first hit. -/
abbrev Context := List (CtxKey × CtxVal)

/-- ctx.Value(key): first association whose key matches, walking outward. -/
def ctxValue : Context → CtxKey → Option CtxVal
  | [], _ => none
  | (k, v) :: outer, key => if key = k then some v else ctxValue outer key

/-- context.WithValue(ctx, k, v). -/
def WithValue (ctx : Context) (k : CtxKey) (v : CtxVal) : Context :=
  (k, v) :: ctx

/-- WithRuntime (src/main.go): attaches the given runtime to the context under
the private `ctxKeyRuntime` key. -/
def WithRuntime (ctx : Context) (rtId : Nat) : Context :=
  WithValue ctx CtxKey.runtimeKey (CtxVal.rt rtId)

/-- GetRuntime (src/main.go): retrieves the attached runtime, or none. -/
def GetRuntime (ctx : Context) : Option Nat :=
  match ctxValue ctx CtxKey.runtimeKey with
  | some (CtxVal.rt id) => some id
  | _ => none

/-- Modelled from the spec: `gojs.WithInitEnv` is part of this repository but
not under src/ (only its callers in src/unnamed/part_003 are).  Per the spec
context carrier accessors, it attaches the init environment to the context. -/
def WithInitEnv (ctx : Context) (envId : Nat) : Context :=
  WithValue ctx CtxKey.initEnvKey (CtxVal.initEnvRef envId)

/-- Modelled from the spec: `gojs.GetInitEnv` is part of this repository but
not under src/.  Retrieves the attached init environment, or none. -/
def GetInitEnv (ctx : Context) : Option Nat :=
  match ctxValue ctx CtxKey.initEnvKey with
  | some (CtxVal.initEnvRef id) => some id
  | _ => none

/-- CompatibilityMode (js/compiler, re-exported by src/runtime_options.go):
"extended" is Goja+Babel+core.js, "base" is plain Goja. -/
inductive CompatibilityMode where
  | extended
  | base
deriving DecidableEq, Repr

/-- The Runtime of src/main.go: one embedded engine instance plus the
current-context cell `ctx` and the compatibility mode fixed at construction.
The engine itself is the external collaborator; `id` stands for the *Runtime
pointer identity. -/
structure Runtime where
  id : Nat
  compatMode : CompatibilityMode
  ctx : Context
deriving DecidableEq, Repr

/-- Runtime.RunString / RunScript / RunProgram (src/main.go lines 84-97) all
perform the same context-cell update `r.ctx = WithRuntime(ctx, r)` before
delegating to the embedded engine; this models that shared update. -/
def Runtime.runString (r : Runtime) (ctx : Context) : Runtime :=
  { r with ctx := WithRuntime ctx r.id }

/-! ## Name mapper (src/unnamed/part_000) -/

/-- The field-name exception table of src/unnamed/part_000. -/
def fieldNameExceptions : List (String × String) :=
  [("OCSP", "ocsp")]

/-- The method-name exception table of src/unnamed/part_000. -/
def methodNameExceptions : List (String × String) :=
  [("JSON", "json"), ("HTML", "html"), ("URL", "url"), ("OCSP", "ocsp")]

/-- `m.Name[0] == 'X'`: the constructor-marker test of MethodName and
ToBindObject (byte 0 of a Go method name; method names are non-empty ASCII). -/
def startsWithX (s : String) : Bool :=
  decide (s.data.head? = some 'X')

/-- strings.ToLower(name[0:1]) + name[1:] for ASCII identifiers. -/
def lowerFirst (s : String) : String :=
  match s.data with
  | [] => ""
  | c :: rest => String.mk (Char.toLower c :: rest)

/-- Models the external snaker.CamelToSnake dependency (third-party library,
outside this repository): snake_cases an identifier, treating a run of
consecutive capitals as one word.  No claim depends on its exact output. -/
def camelToSnake (s : String) : String :=
  let rec go : List Char → Bool → List Char
    | [], _ => []
    | c :: rest, prevLower =>
      if c.isUpper then
        (if prevLower then ['_', c.toLower] else [c.toLower]) ++ go rest false
      else c :: go rest (c.isLower || c.isDigit)
  String.mk (go s.data false)

/-- A reflect.StructField as FieldName consumes it: its Go name, its PkgPath
(non-empty exactly for unexported fields) and the value of `Tag.Get("js")`
(empty string when the tag is absent, matching Go's Tag.Get). -/
structure StructField where
  name : String
  pkgPath : String
  jsTag : String
deriving DecidableEq, Repr

/-- FieldName (src/unnamed/part_000 lines 55-76): unexported fields map to "",
a `js` tag overrides (with "-" hiding), then the exception table, then
snake-casing. -/
def FieldName (f : StructField) : String :=
  if f.pkgPath ≠ "" then ""
  else if f.jsTag ≠ "" then
    if f.jsTag = "-" then "" else f.jsTag
  else
    match List.lookup f.name fieldNameExceptions with
    | some e => e
    | none => camelToSnake f.name

/-- MethodName (src/unnamed/part_000 lines 90-102): an X-prefixed name has the
prefix stripped (checked first), then the exception table, then the first
character is lowercased. -/
def MethodName (name : String) : String :=
  if startsWithX name then String.drop name 1
  else
    match List.lookup name methodNameExceptions with
    | some e => e
    | none => lowerFirst name

/-! ## Bridge / exporter (Runtime.ToBindObject, src/unnamed/part_000) -/

/-- A Go method signature as reflection reports it to ToBindObject:
`params` = fnT.In(0..NumIn-1), `variadic` = fnT.IsVariadic() (the last
parameter is then a slice type), `results` = fnT.Out(0..NumOut-1). -/
structure MethodSig where
  name : String
  params : List GoType
  variadic : Bool
  results : List GoType
deriving DecidableEq, Repr

/-- `hasError := numOut > 1 && fnT.Out(1) == errorT` (part_000 line 137). -/
def hasError (m : MethodSig) : Bool :=
  decide (1 < m.results.length) && decide (m.results.get? 1 = some GoType.errorT)

/-- `wantsContext := numIn > 0 && fnT.In(0) == ctxT` (part_000 lines 140-145). -/
def wantsContext (m : MethodSig) : Bool :=
  decide (m.params.get? 0 = some GoType.ctxT)

/-- `reservedArgs` of the synthesized wrapper: 1 when the runtime context is
injected as argument 0, else 0 (part_000 lines 155-159). -/
def reservedOf (m : MethodSig) : Nat :=
  if wantsContext m then 1 else 0

/-- What an export-set entry is bound to: the raw method value, the
synthesized goja wrapper around it, or the pure-JS constructor trampoline
(`constructWrap`) around either. -/
inductive Binding where
  | direct (m : MethodSig)
  | wrapped (m : MethodSig)
  | construct (b : Binding)
deriving DecidableEq, Repr

/-- The per-method export decision of ToBindObject (part_000 lines 146-242):
wrap iff `hasError || wantsContext`; additionally X-prefixed methods are
wrapped in the pure-JS constructor trampoline. -/
def exportBinding (m : MethodSig) : Binding :=
  let fn := if hasError m || wantsContext m then Binding.wrapped m else Binding.direct m
  if startsWithX m.name then Binding.construct fn else fn

/-- A native argument cell produced by a single goja→Go conversion:
reflect.Zero(T), goja.Undefined() bound as a goja.Value, or the result of
`ExportTo` (the engine's conversion, kept abstract) on a script value. -/
inductive GoNative where
  | zero (t : GoType)
  | jsUndef
  | conv (t : GoType) (v : JSValue)
deriving DecidableEq, Repr

/-- A slot of the wrapper's assembled `args` vector: the injected context, the
whole goja.FunctionCall, a converted scalar, the variadic tail slice, or an
unset reflect.Value (slots after a `break`). -/
inductive GoValue where
  | ctxArg (c : Context)
  | callArg (args : List JSValue)
  | scalar (w : GoNative)
  | sliceArg (t : GoType) (elems : List GoNative)
  | invalid
deriving DecidableEq, Repr

/-- The engine's `ExportTo` conversion capability: convert a script value to a
native value of the given type, or fail (which the wrapper turns into a thrown
script exception). -/
abbrev ConvFn := GoType → JSValue → Except String GoNative

/-- call.Argument(i): the i-th supplied script argument, undefined if absent. -/
def Argument (callArgs : List JSValue) (i : Nat) : JSValue :=
  (callArgs.get? i).getD JSValue.undefined

/-- Converts each remaining supplied argument to the variadic element type, in
order, stopping at the first conversion failure (which Throws), mirroring the
inner loop of part_000 lines 184-191. -/
def convSeq (conv : ConvFn) (e : GoType) : List JSValue → Except String (List GoNative)
  | [] => Except.ok []
  | a :: rest =>
    match conv e a with
    | Except.error err => Except.error err
    | Except.ok w =>
      match convSeq conv e rest with
      | Except.error err => Except.error err
      | Except.ok ws => Except.ok (w :: ws)

/-- Everything the wrapper's argument loop reads besides the loop position:
the conversion capability, the runtime's current context `rctx` (read at call
time, not at bind time), the supplied script arguments, and the method shape. -/
structure LoopEnv where
  conv : ConvFn
  rctx : Context
  callArgs : List JSValue
  variadic : Bool
  reserved : Nat
  numIn : Nat

/-- One slot of the wrapper's argument vector, exactly as the loop body of
part_000 lines 162-214 computes it for parameter type `T` at index `i`.
In the variadic branch the Go int `varArgsLen = len(call.Arguments) -
(i - reservedArgs)` is computed in Nat; this agrees with Go because the branch
is only reached with `i >= reservedArgs` (the skip branch comes first). -/
def slotValue (env : LoopEnv) (T : GoType) (i : Nat) : Except String GoValue :=
  if i < env.reserved then Except.ok (GoValue.ctxArg env.rctx)
  else if T = GoType.fnCallT then Except.ok (GoValue.callArg env.callArgs)
  else if env.variadic = true ∧ i = env.numIn - 1 then
    if env.callArgs.length - (i - env.reserved) = 0 then
      Except.ok (GoValue.scalar (GoNative.zero T))
    else
      match convSeq env.conv T.elemType (env.callArgs.drop (i - env.reserved)) with
      | Except.ok elems => Except.ok (GoValue.sliceArg T elems)
      | Except.error e => Except.error e
  else
    if Argument env.callArgs (i - env.reserved) = JSValue.undefined then
      Except.ok (GoValue.scalar
        (if T = GoType.jsValT then GoNative.jsUndef else GoNative.zero T))
    else
      match env.conv T (Argument env.callArgs (i - env.reserved)) with
      | Except.error e => Except.error e
      | Except.ok w => Except.ok (GoValue.scalar w)

/-- The wrapper's argument loop (part_000 lines 162-214) over the parameter
types from index `i` on.  The goja.FunctionCall and variadic branches `break`,
leaving the remaining slots as unset reflect.Values (`invalid`); a conversion
failure Throws, aborting the call. -/
def buildLoop (env : LoopEnv) : List GoType → Nat → Except String (List GoValue)
  | [], _ => Except.ok []
  | T :: rest, i =>
    if i < env.reserved then
      match buildLoop env rest (i + 1) with
      | Except.ok tail => Except.ok (GoValue.ctxArg env.rctx :: tail)
      | Except.error e => Except.error e
    else if T = GoType.fnCallT then
      Except.ok (GoValue.callArg env.callArgs :: rest.map fun _ => GoValue.invalid)
    else if env.variadic = true ∧ i = env.numIn - 1 then
      if env.callArgs.length - (i - env.reserved) = 0 then
        Except.ok (GoValue.scalar (GoNative.zero T) :: rest.map fun _ => GoValue.invalid)
      else
        match convSeq env.conv T.elemType (env.callArgs.drop (i - env.reserved)) with
        | Except.ok elems =>
          Except.ok (GoValue.sliceArg T elems :: rest.map fun _ => GoValue.invalid)
        | Except.error e => Except.error e
    else
      if Argument env.callArgs (i - env.reserved) = JSValue.undefined then
        match buildLoop env rest (i + 1) with
        | Except.ok tail =>
          Except.ok (GoValue.scalar
            (if T = GoType.jsValT then GoNative.jsUndef else GoNative.zero T) :: tail)
        | Except.error e => Except.error e
      else
        match env.conv T (Argument env.callArgs (i - env.reserved)) with
        | Except.error e => Except.error e
        | Except.ok w =>
          match buildLoop env rest (i + 1) with
          | Except.ok tail => Except.ok (GoValue.scalar w :: tail)
          | Except.error e => Except.error e

/-- The loop environment the wrapper closure builds from the runtime and the
incoming call (part_000 lines 149-160). -/
def mkEnv (conv : ConvFn) (r : Runtime) (m : MethodSig) (callArgs : List JSValue) : LoopEnv :=
  { conv := conv
    rctx := r.ctx
    callArgs := callArgs
    variadic := m.variadic
    reserved := reservedOf m
    numIn := m.params.length }

/-- The full argument-vector assembly of the synthesized wrapper. -/
def buildArgs (conv : ConvFn) (r : Runtime) (m : MethodSig) (callArgs : List JSValue) :
    Except String (List GoValue) :=
  buildLoop (mkEnv conv r m callArgs) m.params 0

/-- A native return value of the underlying method: a nil error, a non-nil
error (carrying its message/identity), or an ordinary value by identity. -/
inductive NativeResult where
  | nilErr
  | err (s : String)
  | val (n : Nat)
deriving DecidableEq, Repr

/-- ret[1].IsNil() on the error slot. -/
def NativeResult.isNilErr : NativeResult → Bool
  | NativeResult.nilErr => true
  | _ => false

/-- The error carried by a non-nil error result. -/
def errText : NativeResult → String
  | NativeResult.err s => s
  | _ => ""

/-- The wrapper's return handling (part_000 lines 223-229): with at least one
result, a non-nil error slot Throws (script exception carrying the error);
otherwise the first result is converted to a script value (`toValue` keeps the
engine's ToValue abstract); no results yield undefined. -/
def wrapperReturn (toValue : NativeResult → JSValue) (m : MethodSig)
    (ret : List NativeResult) : Except String JSValue :=
  if 0 < ret.length then
    if hasError m = true ∧ ((ret.get? 1).getD NativeResult.nilErr).isNilErr = false then
      Except.error (errText ((ret.get? 1).getD NativeResult.nilErr))
    else
      Except.ok (toValue ((ret.get? 0).getD NativeResult.nilErr))
  else
    Except.ok JSValue.undefined

/-- One invocation of the synthesized wrapper: assemble the argument vector,
call the underlying method (`impl`, kept abstract), handle the results. -/
def invokeWrapped (conv : ConvFn) (toValue : NativeResult → JSValue)
    (impl : List GoValue → List NativeResult) (r : Runtime) (m : MethodSig)
    (callArgs : List JSValue) : Except String JSValue :=
  match buildArgs conv r m callArgs with
  | Except.error e => Except.error e
  | Except.ok args => wrapperReturn toValue m (impl args)

/-- The field-export loop of ToBindObject (part_000 lines 250-256): a field is
added to the export set under its mapped name iff that name is non-empty. -/
def fieldExports : List StructField → List (String × StructField)
  | [] => []
  | f :: rest =>
    if FieldName f ≠ "" then (FieldName f, f) :: fieldExports rest
    else fieldExports rest

/-! ## Compatibility-mode validation (src/runtime_options.go, src/main.go) -/

/-- The string form of a compatibility mode (the enumer-generated String()
method of js/compiler). -/
def CompatibilityMode.modeName : CompatibilityMode → String
  | CompatibilityMode.extended => "extended"
  | CompatibilityMode.base => "base"

/-- Modelled from the spec: `compiler.CompatibilityModeValues` lives in
js/compiler, which is not under src/; the spec names exactly the modes
"extended" (Goja+Babel+core.js) and "base" (plain Goja). -/
def CompatibilityModeValues : List CompatibilityMode :=
  [CompatibilityMode.extended, CompatibilityMode.base]

/-- The valid mode names, as runtime_options.go collects them. -/
def compatibilityModeNames : List String :=
  CompatibilityModeValues.map CompatibilityMode.modeName

/-- Modelled from the spec: `compiler.CompatibilityModeString` (js/compiler,
not under src/) parses a mode name, failing on anything else. -/
def CompatibilityModeString (s : String) : Except String CompatibilityMode :=
  if s = "extended" then Except.ok CompatibilityMode.extended
  else if s = "base" then Except.ok CompatibilityMode.base
  else Except.error (s ++ " does not belong to CompatibilityMode values")

/-- The error message built by ValidateCompatibilityMode
(src/runtime_options.go lines 122-129): lists every valid mode name. -/
def invalidModeMessage (val : String) : String :=
  "invalid compatibility mode \"" ++ val ++ "\". Use: \"" ++
    String.intercalate ("\", \"") compatibilityModeNames ++ "\""

/-- ValidateCompatibilityMode (src/runtime_options.go lines 117-131): the
empty string yields the base mode; otherwise delegate to the compiler's
parser, replacing its failure with the message listing the valid names. -/
def ValidateCompatibilityMode (val : String) : Except String CompatibilityMode :=
  if val = "" then Except.ok CompatibilityMode.base
  else
    match CompatibilityModeString val with
    | Except.ok cm => Except.ok cm
    | Except.error _ => Except.error (invalidModeMessage val)

/-- RuntimeOptions (src/runtime_options.go); only the compatibility mode
matters to the claims (Env is forwarded opaquely). -/
structure RuntimeOptions where
  compatibilityMode : String
deriving DecidableEq, Repr

/-- NewWith(nil) substitutes empty options (src/main.go lines 44-46). -/
def defaultRuntimeOptions : RuntimeOptions :=
  { compatibilityMode := "" }

/-- NewWith (src/main.go lines 43-68): validates the compatibility mode before
constructing anything; an invalid mode aborts construction with the validation
error (the engine construction and core.js preamble are external and elided).
`rtId` stands for the fresh *Runtime identity. -/
def NewWith (rtId : Nat) (opts : Option RuntimeOptions) : Except String Runtime :=
  match ValidateCompatibilityMode (opts.getD defaultRuntimeOptions).compatibilityMode with
  | Except.error e => Except.error e
  | Except.ok cm => Except.ok { id := rtId, compatMode := cm, ctx := [] }

/-! ## Shared-object cache and SharedArray constructor
(src/unnamed/part_004; cache modelled from the spec) -/

/-- A value held by the shared-object cache: either a `sharedArray` (the type
src/unnamed/part_004 builds and type-asserts on) or some other shared object.
Equality of `SharedValue`s models Go pointer/content identity. -/
inductive SharedValue where
  | sharedArray (arr : List String)
  | other (id : Nat)
deriving DecidableEq, Repr

/-- Lookup in the cache's name-keyed store. -/
def lookupShared : List (String × SharedValue) → String → Option SharedValue
  | [], _ => none
  | (k, v) :: rest, name => if k = name then some v else lookupShared rest name

/-- Modelled from the spec: `gojs.SharedObjects.GetOrCreateShare` is part of
this repository but not under src/.  Per spec section 4.4 it is a single-flight
cache: the first request for a name runs the factory and stores the result;
every other request returns the stored value itself and never runs its factory.
Concurrent callers block until the first completes, so any execution
linearizes; the model is that linearization.  Returns (value, new cache state,
whether this call ran the factory). -/
def GetOrCreateShare (cache : List (String × SharedValue)) (name : String)
    (factory : Unit → SharedValue) :
    SharedValue × List (String × SharedValue) × Bool :=
  match lookupShared cache name with
  | some v => (v, cache, false)
  | none =>
    let v := factory ()
    (v, cache ++ [(name, v)], true)

/-- One cache request: a name and the factory its caller supplies. -/
abbrev ShareRequest := String × (Unit → SharedValue)

/-- A linearized sequence of GetOrCreateShare calls (possibly from distinct
runtimes sharing one cache).  Returns the per-call results in order, the final
cache state, and the names for which a factory actually ran (with
multiplicity). -/
def runRequests (cache : List (String × SharedValue)) :
    List ShareRequest →
      List (String × SharedValue) × List (String × SharedValue) × List String
  | [] => ([], cache, [])
  | (n, f) :: rest =>
    ((n, (GetOrCreateShare cache n f).1) ::
        (runRequests (GetOrCreateShare cache n f).2.1 rest).1,
      (runRequests (GetOrCreateShare cache n f).2.1 rest).2.1,
      if (GetOrCreateShare cache n f).2.2 then
        n :: (runRequests (GetOrCreateShare cache n f).2.1 rest).2.2
      else (runRequests (GetOrCreateShare cache n f).2.1 rest).2.2)

/-- The cache-key namespace of src/unnamed/part_004 line 38. -/
def sharedArrayNameLead : String := "k6/data/SharedArray."

/-- data.XSharedArray (src/unnamed/part_004 lines 42-65).  The factory
argument stands for the closure over `getShareArrayFromCall(ctx, rt, call)`;
`array.wrap` (not under src/) returns a read-only view of the same array, kept
as the value itself.  Returns (script result or error, new cache state,
whether the factory ran). -/
def XSharedArray (ctx : Context) (name : String) (factory : Unit → SharedValue)
    (cache : List (String × SharedValue)) :
    Except String SharedValue × List (String × SharedValue) × Bool :=
  match GetInitEnv ctx with
  | none => (Except.error ("missing init environment"), cache, false)
  | some _ =>
    if name = "" then
      (Except.error ("empty name provided to SharedArray's constructor"), cache, false)
    else
      match GetOrCreateShare cache (sharedArrayNameLead ++ name) factory with
      | (value, cache2, ran) =>
        match value with
        | SharedValue.sharedArray arr =>
          (Except.ok (SharedValue.sharedArray arr), cache2, ran)
        | SharedValue.other _ =>
          (Except.error ("wrong type of shared object"), cache2, ran)

/-! ## Concrete fixtures used by witnesses and counterexamples -/

/-- A total conversion capability: every script value converts, canonically. -/
def conv0 : ConvFn := fun t v => Except.ok (GoNative.conv t v)

/-- A concrete engine ToValue for witnesses. -/
def toValue0 : NativeResult → JSValue
  | NativeResult.val n => JSValue.num (Int.ofNat n)
  | _ => JSValue.undefined

/-- A runtime with identity 1 and an empty current-context cell. -/
def rt1 : Runtime := { id := 1, compatMode := CompatibilityMode.base, ctx := [] }

/-- A caller context that already carries a runtime attachment to runtime 0
(as a re-entrant evaluation on another runtime would produce). -/
def ctxR0 : Context := [(CtxKey.runtimeKey, CtxVal.rt 0)]

/-- A caller context carrying the user pair a=b, as in
TestNativeCallWithContextParameter (src/main_test.go). -/
def ctxAB : Context := [(CtxKey.userKey "a", CtxVal.str "b")]

/-- A context-consuming method signature func(ctx) goja.Value. -/
def mCtx : MethodSig :=
  { name := "f", params := [GoType.ctxT], variadic := false, results := [GoType.jsValT] }

/-- A fallible method signature func() (int, error). -/
def mErr : MethodSig :=
  { name := "f", params := [], variadic := false, results := [GoType.intT, GoType.errorT] }

/-- An X-prefixed method with neither error return nor context parameter. -/
def mXFoo : MethodSig :=
  { name := "XFoo", params := [], variadic := false, results := [] }

/-- A plain variadic method func(xs ...int) int: no error, no context. -/
def mSum : MethodSig :=
  { name := "Sum", params := [GoType.sliceT GoType.intT], variadic := true,
    results := [GoType.intT] }

/-- A wrapped variadic method func(ctx, xs ...int) (int, error). -/
def mVar : MethodSig :=
  { name := "Lookup", params := [GoType.ctxT, GoType.sliceT GoType.intT], variadic := true,
    results := [GoType.intT, GoType.errorT] }

/-- A wrapped method func(ctx, n int, v goja.Value) (int, error). -/
def mOpt : MethodSig :=
  { name := "Get", params := [GoType.ctxT, GoType.intT, GoType.jsValT], variadic := false,
    results := [GoType.intT, GoType.errorT] }

/-- An underlying implementation that fails with a non-nil error. -/
def implBoom : List GoValue → List NativeResult :=
  fun _ => [NativeResult.val 7, NativeResult.err "boom"]

/-- An underlying implementation that succeeds with value 7 and a nil error. -/
def implOk : List GoValue → List NativeResult :=
  fun _ => [NativeResult.val 7, NativeResult.nilErr]

/-- An unexported struct field (non-empty PkgPath). -/
def fUnexp : StructField := { name := "secret", pkgPath := "gojs", jsTag := "" }

/-- An exported field hidden by the js:"-" tag. -/
def fHidden : StructField := { name := "Secret", pkgPath := "", jsTag := "-" }

/-- An exported field renamed by a js tag. -/
def fTagged : StructField := { name := "URLValue", pkgPath := "", jsTag := "custom" }

/-- Runtime options naming an invalid compatibility mode. -/
def optsWat : RuntimeOptions := { compatibilityMode := "wat" }

/-- A context carrying an init environment, as gojs.WithInitEnv produces. -/
def ctxEnv : Context := [(CtxKey.initEnvKey, CtxVal.initEnvRef 0)]

/-- A factory producing a one-element shared array. -/
def facW : Unit → SharedValue := fun _ => SharedValue.sharedArray ["x"]

/-- A second factory, producing a different value, for a later caller. -/
def facW2 : Unit → SharedValue := fun _ => SharedValue.other 9

/-- A cache whose entry under the derived SharedArray key is not an array. -/
def cacheBad : List (String × SharedValue) :=
  [("k6/data/SharedArray.s", SharedValue.other 3)]

/-- Two callers (as from two runtimes) requesting the same shared name with
different factories. -/
def reqsShared : List ShareRequest := [("s", facW), ("s", facW2)]

/-! ## Helper lemmas -/

theorem convSeq_total (conv : ConvFn) (e : GoType)
    (hconv : ∀ t v, ∃ w, conv t v = Except.ok w) :
    ∀ l : List JSValue, ∃ ws, convSeq conv e l = Except.ok ws ∧
      ws.length = l.length ∧
      List.Forall₂ (fun a w => conv e a = Except.ok w) l ws := by
  intro l
  induction l with
  | nil => exact ⟨[], rfl, rfl, List.Forall₂.nil⟩
  | cons a rest ih =>
    obtain ⟨w, hw⟩ := hconv e a
    obtain ⟨ws, hws, hlen, hfa⟩ := ih
    exact ⟨w :: ws, by simp [convSeq, hw, hws], by simp [hlen], List.Forall₂.cons hw hfa⟩

theorem buildLoop_total (env : LoopEnv)
    (hconv : ∀ t v, ∃ w, env.conv t v = Except.ok w) :
    ∀ (l : List GoType) (i : Nat), ∃ args, buildLoop env l i = Except.ok args := by
  intro l
  induction l with
  | nil => intro i; exact ⟨[], rfl⟩
  | cons T0 rest ih =>
    intro i
    obtain ⟨tail, htail⟩ := ih (i + 1)
    by_cases h0 : i < env.reserved
    · exact ⟨GoValue.ctxArg env.rctx :: tail, by simp [buildLoop, h0, htail]⟩
    · by_cases hfc : T0 = GoType.fnCallT
      · exact ⟨GoValue.callArg env.callArgs :: rest.map fun _ => GoValue.invalid,
          by simp [buildLoop, h0, hfc]⟩
      · by_cases hvl : env.variadic = true ∧ i = env.numIn - 1
        · by_cases hk : env.callArgs.length - (i - env.reserved) = 0
          · refine ⟨GoValue.scalar (GoNative.zero T0) :: rest.map fun _ => GoValue.invalid, ?_⟩
            rw [buildLoop, if_neg h0, if_neg hfc, if_pos hvl, if_pos hk]
          · obtain ⟨ws, hws, _, _⟩ :=
              convSeq_total env.conv T0.elemType hconv
                (env.callArgs.drop (i - env.reserved))
            refine ⟨GoValue.sliceArg T0 ws :: rest.map fun _ => GoValue.invalid, ?_⟩
            rw [buildLoop, if_neg h0, if_neg hfc, if_pos hvl, if_neg hk, hws]
        · by_cases hund : Argument env.callArgs (i - env.reserved) = JSValue.undefined
          · exact ⟨GoValue.scalar
                (if T0 = GoType.jsValT then GoNative.jsUndef else GoNative.zero T0) :: tail,
              by simp [buildLoop, h0, hfc, hvl, hund, htail]⟩
          · obtain ⟨w, hw⟩ := hconv T0 (Argument env.callArgs (i - env.reserved))
            exact ⟨GoValue.scalar w :: tail,
              by simp [buildLoop, h0, hfc, hvl, hund, hw, htail]⟩

theorem buildLoop_get (env : LoopEnv) :
    ∀ (l : List GoType) (i : Nat) (args : List GoValue),
      buildLoop env l i = Except.ok args →
      ∀ (j : Nat) (T : GoType), l.get? j = some T →
        (∀ jp Tp, jp < j → l.get? jp = some Tp →
          Tp ≠ GoType.fnCallT ∧ ¬(env.variadic = true ∧ i + jp = env.numIn - 1)) →
        ∃ w, slotValue env T (i + j) = Except.ok w ∧ args.get? j = some w := by
  intro l
  induction l with
  | nil => intro i args hok j T hT hpre; simp at hT
  | cons T0 rest ih =>
    intro i args hok j T hT hpre
    by_cases h0 : i < env.reserved
    · cases hrec : buildLoop env rest (i + 1) with
      | error e => rw [buildLoop, if_pos h0, hrec] at hok; cases hok
      | ok tail =>
        rw [buildLoop, if_pos h0, hrec] at hok
        injection hok with hok
        subst hok
        match j with
        | 0 =>
          simp only [List.get?] at hT
          refine ⟨GoValue.ctxArg env.rctx, ?_, rfl⟩
          simp [slotValue, h0]
        | jn + 1 =>
          simp only [List.get?] at hT
          have hpre2 : ∀ jp Tp, jp < jn → rest.get? jp = some Tp →
              Tp ≠ GoType.fnCallT ∧
                ¬(env.variadic = true ∧ (i + 1) + jp = env.numIn - 1) := by
            intro jp Tp hlt hget
            have h := hpre (jp + 1) Tp (by omega) (by simpa using hget)
            exact ⟨h.1, by rw [show i + 1 + jp = i + (jp + 1) by omega]; exact h.2⟩
          obtain ⟨w, hs, hg⟩ := ih (i + 1) tail hrec jn T hT hpre2
          exact ⟨w, by rw [show i + (jn + 1) = (i + 1) + jn by omega]; exact hs,
            by simpa using hg⟩
    · by_cases hfc : T0 = GoType.fnCallT
      · subst hfc
        rw [buildLoop, if_neg h0] at hok
        simp only [if_pos rfl] at hok
        injection hok with hok
        subst hok
        match j with
        | 0 =>
          simp only [List.get?] at hT
          rw [show T = GoType.fnCallT from (Option.some.inj hT).symm]
          refine ⟨GoValue.callArg env.callArgs, ?_, rfl⟩
          simp [slotValue, h0]
        | jn + 1 =>
          exact absurd rfl (hpre 0 GoType.fnCallT (by omega) rfl).1
      · by_cases hvl : env.variadic = true ∧ i = env.numIn - 1
        · have hnot : ∀ jn : Nat, j = jn + 1 → False := by
            intro jn hj
            subst hj
            exact (hpre 0 T0 (by omega) rfl).2 ⟨hvl.1, by simpa using hvl.2⟩
          match j with
          | 0 =>
            simp only [List.get?] at hT
            rw [show T = T0 from (Option.some.inj hT).symm]
            by_cases hk : env.callArgs.length - (i - env.reserved) = 0
            · rw [buildLoop, if_neg h0, if_neg hfc, if_pos hvl, if_pos hk] at hok
              injection hok with hok
              subst hok
              refine ⟨GoValue.scalar (GoNative.zero T0), ?_, rfl⟩
              simp only [Nat.add_zero, slotValue]
              rw [if_neg h0, if_neg hfc, if_pos hvl, if_pos hk]
            · cases hcs : convSeq env.conv T0.elemType
                  (env.callArgs.drop (i - env.reserved)) with
              | error e =>
                rw [buildLoop, if_neg h0, if_neg hfc, if_pos hvl, if_neg hk, hcs] at hok
                cases hok
              | ok elems =>
                rw [buildLoop, if_neg h0, if_neg hfc, if_pos hvl, if_neg hk, hcs] at hok
                injection hok with hok
                subst hok
                refine ⟨GoValue.sliceArg T0 elems, ?_, rfl⟩
                simp only [Nat.add_zero, slotValue]
                rw [if_neg h0, if_neg hfc, if_pos hvl, if_neg hk, hcs]
          | jn + 1 => exact (hnot jn rfl).elim
        · by_cases hund : Argument env.callArgs (i - env.reserved) = JSValue.undefined
          · cases hrec : buildLoop env rest (i + 1) with
            | error e =>
              rw [buildLoop, if_neg h0, if_neg hfc, if_neg hvl, if_pos hund, hrec] at hok
              cases hok
            | ok tail =>
              rw [buildLoop, if_neg h0, if_neg hfc, if_neg hvl, if_pos hund, hrec] at hok
              injection hok with hok
              subst hok
              match j with
              | 0 =>
                simp only [List.get?] at hT
                rw [show T = T0 from (Option.some.inj hT).symm]
                refine ⟨GoValue.scalar
                  (if T0 = GoType.jsValT then GoNative.jsUndef else GoNative.zero T0), ?_, rfl⟩
                simp only [Nat.add_zero, slotValue]
                rw [if_neg h0, if_neg hfc, if_neg hvl, if_pos hund]
              | jn + 1 =>
                simp only [List.get?] at hT
                have hpre2 : ∀ jp Tp, jp < jn → rest.get? jp = some Tp →
                    Tp ≠ GoType.fnCallT ∧
                      ¬(env.variadic = true ∧ (i + 1) + jp = env.numIn - 1) := by
                  intro jp Tp hlt hget
                  have h := hpre (jp + 1) Tp (by omega) (by simpa using hget)
                  exact ⟨h.1, by rw [show i + 1 + jp = i + (jp + 1) by omega]; exact h.2⟩
                obtain ⟨w, hs, hg⟩ := ih (i + 1) tail hrec jn T hT hpre2
                exact ⟨w, by rw [show i + (jn + 1) = (i + 1) + jn by omega]; exact hs,
                  by simpa using hg⟩
          · cases hcv : env.conv T0 (Argument env.callArgs (i - env.reserved)) with
            | error e =>
              rw [buildLoop, if_neg h0, if_neg hfc, if_neg hvl, if_neg hund, hcv] at hok
              cases hok
            | ok w0 =>
              cases hrec : buildLoop env rest (i + 1) with
              | error e =>
                rw [buildLoop, if_neg h0, if_neg hfc, if_neg hvl, if_neg hund, hcv,
                  hrec] at hok
                cases hok
              | ok tail =>
                rw [buildLoop, if_neg h0, if_neg hfc, if_neg hvl, if_neg hund, hcv,
                  hrec] at hok
                injection hok with hok
                subst hok
                match j with
                | 0 =>
                  simp only [List.get?] at hT
                  rw [show T = T0 from (Option.some.inj hT).symm]
                  refine ⟨GoValue.scalar w0, ?_, rfl⟩
                  simp only [Nat.add_zero, slotValue]
                  rw [if_neg h0, if_neg hfc, if_neg hvl, if_neg hund, hcv]
                | jn + 1 =>
                  simp only [List.get?] at hT
                  have hpre2 : ∀ jp Tp, jp < jn → rest.get? jp = some Tp →
                      Tp ≠ GoType.fnCallT ∧
                        ¬(env.variadic = true ∧ (i + 1) + jp = env.numIn - 1) := by
                    intro jp Tp hlt hget
                    have h := hpre (jp + 1) Tp (by omega) (by simpa using hget)
                    exact ⟨h.1, by rw [show i + 1 + jp = i + (jp + 1) by omega]; exact h.2⟩
                  obtain ⟨w, hs, hg⟩ := ih (i + 1) tail hrec jn T hT hpre2
                  exact ⟨w, by rw [show i + (jn + 1) = (i + 1) + jn by omega]; exact hs,
                    by simpa using hg⟩

theorem lookupShared_append (c d : List (String × SharedValue)) (n : String) :
    lookupShared (c ++ d) n =
      match lookupShared c n with
      | some v => some v
      | none => lookupShared d n := by
  induction c with
  | nil => rfl
  | cons p rest ih =>
    obtain ⟨k, v⟩ := p
    by_cases h : k = n
    · simp [lookupShared, h]
    · simp [lookupShared, h, ih]

theorem runRequests_done (n : String) (v : SharedValue) :
    ∀ (rs : List ShareRequest) (cache : List (String × SharedValue)),
      lookupShared cache n = some v →
      (∀ p ∈ (runRequests cache rs).1, p.1 = n → p.2 = v) ∧
      n ∉ (runRequests cache rs).2.2 ∧
      lookupShared (runRequests cache rs).2.1 n = some v := by
  intro rs
  induction rs with
  | nil =>
    intro cache h
    refine ⟨?_, ?_, ?_⟩ <;> simp [runRequests, h]
  | cons hd rest ih =>
    intro cache h
    obtain ⟨q, g⟩ := hd
    cases hq : lookupShared cache q with
    | some w =>
      have hstep : GetOrCreateShare cache q g = (w, cache, false) := by
        simp [GetOrCreateShare, hq]
      obtain ⟨ih1, ih2, ih3⟩ := ih cache h
      refine ⟨?_, ?_, ?_⟩
      · intro p hp hpn
        simp only [runRequests, hstep] at hp
        rcases List.mem_cons.mp hp with hp1 | hp2
        · subst hp1
          simp only at hpn
          rw [hpn] at hq
          rw [h] at hq
          exact (Option.some.inj hq).symm
        · exact ih1 p hp2 hpn
      · simp only [runRequests, hstep]
        simpa using ih2
      · simp only [runRequests, hstep]
        exact ih3
    | none =>
      have hqn : q ≠ n := by
        intro he
        rw [he, h] at hq
        cases hq
      have hstep : GetOrCreateShare cache q g = (g (), cache ++ [(q, g ())], true) := by
        simp [GetOrCreateShare, hq]
      have h2 : lookupShared (cache ++ [(q, g ())]) n = some v := by
        rw [lookupShared_append, h]
      obtain ⟨ih1, ih2, ih3⟩ := ih (cache ++ [(q, g ())]) h2
      refine ⟨?_, ?_, ?_⟩
      · intro p hp hpn
        simp only [runRequests, hstep] at hp
        rcases List.mem_cons.mp hp with hp1 | hp2
        · subst hp1
          simp only at hpn
          exact absurd hpn hqn
        · exact ih1 p hp2 hpn
      · simp [runRequests, hstep, List.mem_cons, not_or]
        exact ⟨Ne.symm hqn, ih2⟩
      · simp only [runRequests, hstep]
        exact ih3

theorem infix_append_of_right {α : Type} (s : List α) {l t : List α} (h : l <:+: t) :
    l <:+: s ++ t := by
  obtain ⟨u, v, huv⟩ := h
  exact ⟨s ++ u, v, by rw [← huv]; simp⟩

theorem validate_error_of_invalid (s : String) (h1 : s ≠ "")
    (h2 : s ∉ compatibilityModeNames) :
    ValidateCompatibilityMode s = Except.error (invalidModeMessage s) := by
  have hext : s ≠ "extended" := by
    intro h
    exact h2 (by simp [compatibilityModeNames, CompatibilityModeValues,
      CompatibilityMode.modeName, h])
  have hbase : s ≠ "base" := by
    intro h
    exact h2 (by simp [compatibilityModeNames, CompatibilityModeValues,
      CompatibilityMode.modeName, h])
  simp [ValidateCompatibilityMode, CompatibilityModeString, h1, hext, hbase]

theorem validate_error_inv (s : String) (e : String)
    (h : ValidateCompatibilityMode s = Except.error e) :
    s ≠ "" ∧ s ∉ compatibilityModeNames ∧ e = invalidModeMessage s := by
  by_cases h0 : s = ""
  · rw [h0] at h
    simp [ValidateCompatibilityMode] at h
  · by_cases hext : s = "extended"
    · rw [hext] at h
      simp [ValidateCompatibilityMode, CompatibilityModeString] at h
    · by_cases hbase : s = "base"
      · rw [hbase] at h
        simp [ValidateCompatibilityMode, CompatibilityModeString] at h
      · have hmem : s ∉ compatibilityModeNames := by
          simp [compatibilityModeNames, CompatibilityModeValues,
            CompatibilityMode.modeName, hext, hbase]
        refine ⟨h0, hmem, ?_⟩
        have hv := validate_error_of_invalid s h0 hmem
        rw [hv] at h
        exact (Except.error.inj h).symm

theorem invalidModeMessage_data (s : String) :
    (invalidModeMessage s).data =
      ("invalid compatibility mode \"").data ++ s.data ++
        ("\". Use: \"extended\", \"base\"").data := by
  simp only [invalidModeMessage, compatibilityModeNames, CompatibilityModeValues,
    CompatibilityMode.modeName, List.map, String.intercalate, String.data_append]
  simp [String.data_append]
  decide

theorem single_flight_aux (n : String) (f0 : Unit → SharedValue) (post : List ShareRequest) :
    ∀ (pre : List ShareRequest) (cache : List (String × SharedValue)),
      lookupShared cache n = none →
      (∀ q ∈ pre, q.1 ≠ n) →
      (runRequests cache (pre ++ (n, f0) :: post)).2.2.count n = 1 ∧
      ∀ p ∈ (runRequests cache (pre ++ (n, f0) :: post)).1, p.1 = n → p.2 = f0 () := by
  intro pre
  induction pre with
  | nil =>
    intro cache hnone hpre
    have hstep : GetOrCreateShare cache n f0 = (f0 (), cache ++ [(n, f0 ())], true) := by
      simp [GetOrCreateShare, hnone]
    have h2 : lookupShared (cache ++ [(n, f0 ())]) n = some (f0 ()) := by
      rw [lookupShared_append, hnone]
      simp [lookupShared]
    obtain ⟨d1, d2, d3⟩ := runRequests_done n (f0 ()) post (cache ++ [(n, f0 ())]) h2
    constructor
    · have hc : (runRequests (cache ++ [(n, f0 ())]) post).2.2.count n = 0 :=
        List.count_eq_zero.mpr d2
      simp [runRequests, hstep, List.count_cons_self, hc]
    · intro p hp hpn
      simp only [List.nil_append, runRequests, hstep] at hp
      rcases List.mem_cons.mp hp with h | h
      · subst h; rfl
      · exact d1 p h hpn
  | cons q pre2 ih =>
    intro cache hnone hpre
    obtain ⟨qn, qg⟩ := q
    have hqn : qn ≠ n := hpre (qn, qg) (List.mem_cons_self _ _)
    have hpre2 : ∀ q2 ∈ pre2, q2.1 ≠ n := fun q2 hq2 => hpre q2 (List.mem_cons_of_mem _ hq2)
    cases hq : lookupShared cache qn with
    | some w =>
      have hstep : GetOrCreateShare cache qn qg = (w, cache, false) := by
        simp [GetOrCreateShare, hq]
      obtain ⟨c1, c2⟩ := ih cache hnone hpre2
      constructor
      · simp only [List.cons_append, runRequests, hstep]
        simpa using c1
      · intro p hp hpn
        simp only [List.cons_append, runRequests, hstep] at hp
        rcases List.mem_cons.mp hp with h | h
        · subst h
          exact absurd hpn hqn
        · exact c2 p h hpn
    | none =>
      have hstep : GetOrCreateShare cache qn qg = (qg (), cache ++ [(qn, qg ())], true) := by
        simp [GetOrCreateShare, hq]
      have hnone2 : lookupShared (cache ++ [(qn, qg ())]) n = none := by
        rw [lookupShared_append, hnone]
        simp [lookupShared, hqn]
      obtain ⟨c1, c2⟩ := ih (cache ++ [(qn, qg ())]) hnone2 hpre2
      constructor
      · simp only [List.cons_append, runRequests, hstep]
        simp [List.count_cons, Ne.symm hqn, c1]
      · intro p hp hpn
        simp only [List.cons_append, runRequests, hstep] at hp
        rcases List.mem_cons.mp hp with h | h
        · subst h
          exact absurd hpn hqn
        · exact c2 p h hpn

/-! ## Claim theorems -/

/-- C5 (confirmed): for every method whose name begins with the capital letter
X, MethodName returns the name with that first character stripped — regardless
of the exception table or the lowercasing default, which are only consulted
afterwards — and the export decision wraps the binding in the script-language
constructor trampoline so the exported function can be used with `new`. -/
theorem constructor_marker_mapping (m : MethodSig)
    (h : m.name.data.head? = some 'X') :
    MethodName m.name = String.drop m.name 1 ∧
    ∃ b, exportBinding m = Binding.construct b := by
  have hx : startsWithX m.name = true := by simp [startsWithX, h]
  constructor
  · simp [MethodName, hx]
  · refine ⟨if hasError m || wantsContext m then Binding.wrapped m else Binding.direct m, ?_⟩
    simp [exportBinding, hx]

/-- Witness for constructor_marker_mapping at the concrete method XFoo. -/
theorem constructor_marker_mapping_witness :
    MethodName "XFoo" = String.drop "XFoo" 1 ∧
    ∃ b, exportBinding mXFoo = Binding.construct b :=
  constructor_marker_mapping mXFoo (by decide)

/-- C6 (confirmed): FieldName returns the empty string for unexported fields
and for the js:"-" hide marker; otherwise a non-empty tag wins over the
exception table and the snake-case default; and a field whose mapped name is
empty is absent from the export set. -/
theorem fieldName_visibility_and_tags (f : StructField) (pre post : List StructField) :
    (f.pkgPath ≠ "" → FieldName f = "") ∧
    (f.jsTag = "-" → FieldName f = "") ∧
    (f.pkgPath = "" → f.jsTag ≠ "" → f.jsTag ≠ "-" → FieldName f = f.jsTag) ∧
    (FieldName f = "" → fieldExports (pre ++ f :: post) = fieldExports (pre ++ post)) := by
  refine ⟨?_, ?_, ?_, ?_⟩
  · intro h
    simp [FieldName, h]
  · intro h
    by_cases hp : f.pkgPath = ""
    · simp [FieldName, hp, h]
    · simp [FieldName, hp]
  · intro h1 h2 h3
    simp [FieldName, h1, h2, h3]
  · intro h
    induction pre with
    | nil => simp [fieldExports, h]
    | cons p rest ih => simp [fieldExports, ih]

/-- Witness for fieldName_visibility_and_tags at three concrete fields. -/
theorem fieldName_visibility_and_tags_witness :
    FieldName fUnexp = "" ∧
    FieldName fHidden = "" ∧
    FieldName fTagged = "custom" ∧
    fieldExports [fHidden, fTagged] = fieldExports [fTagged] :=
  ⟨(fieldName_visibility_and_tags fUnexp [] []).1 (by decide),
   (fieldName_visibility_and_tags fHidden [] []).2.1 (by decide),
   (fieldName_visibility_and_tags fTagged [] []).2.2.1 (by decide) (by decide) (by decide),
   (fieldName_visibility_and_tags fHidden [] [fTagged]).2.2.2 (by decide)⟩

/-- C8 counterexample (claim corrected): the X-prefixed method XFoo has no
error return, no context parameter, yet its export entry is the constructor
trampoline around the raw method value, not the raw method value itself. -/
theorem direct_export_counterexample :
    hasError mXFoo = false ∧ wantsContext mXFoo = false ∧ mXFoo.variadic = false ∧
    exportBinding mXFoo = Binding.construct (Binding.direct mXFoo) ∧
    exportBinding mXFoo ≠ Binding.direct mXFoo := by
  decide

/-- C8 (corrected): for every exported method that neither returns an
error-shaped second result nor takes a context-shaped first parameter AND
whose name does not begin with the constructor marker X, the export decision
binds the raw method value directly — in particular a variadic method alone
triggers no wrapping. -/
theorem direct_export_amended (m : MethodSig)
    (h1 : hasError m = false) (h2 : wantsContext m = false)
    (h3 : startsWithX m.name = false) :
    exportBinding m = Binding.direct m := by
  simp [exportBinding, h1, h2, h3]

/-- Witness for direct_export_amended at the plain variadic method Sum. -/
theorem direct_export_witness :
    exportBinding mSum = Binding.direct mSum :=
  direct_export_amended mSum (by decide) (by decide) (by decide)

/-- C9 (confirmed): ValidateCompatibilityMode errors exactly on non-empty
strings that are not valid mode names, its error message lists every valid
mode name, the empty string yields the base mode without error, and NewWith
turns an invalid mode name into a constructor failure. -/
theorem validateCompatibilityMode_spec (s : String) (rtId : Nat) (opts : RuntimeOptions) :
    ValidateCompatibilityMode "" = Except.ok CompatibilityMode.base ∧
    ((∃ e, ValidateCompatibilityMode s = Except.error e) ↔
      (s ≠ "" ∧ s ∉ compatibilityModeNames)) ∧
    (∀ e, ValidateCompatibilityMode s = Except.error e →
      ∀ nm ∈ compatibilityModeNames, nm.data <:+: e.data) ∧
    (opts.compatibilityMode ≠ "" → opts.compatibilityMode ∉ compatibilityModeNames →
      ∃ e, NewWith rtId (some opts) = Except.error e) := by
  refine ⟨rfl, ?_, ?_, ?_⟩
  · constructor
    · intro he
      obtain ⟨e, he⟩ := he
      obtain ⟨h0, hmem, _⟩ := validate_error_inv s e he
      exact ⟨h0, hmem⟩
    · intro hb
      exact ⟨invalidModeMessage s, validate_error_of_invalid s hb.1 hb.2⟩
  · intro e he nm hnm
    obtain ⟨h0, hmem, hmsg⟩ := validate_error_inv s e he
    subst hmsg
    rw [invalidModeMessage_data]
    have hnm2 : nm = "extended" ∨ nm = "base" := by
      simpa [compatibilityModeNames, CompatibilityModeValues,
        CompatibilityMode.modeName] using hnm
    rcases hnm2 with h | h
    · subst h
      exact infix_append_of_right _ (by decide)
    · subst h
      exact infix_append_of_right _ (by decide)
  · intro h1 h2
    refine ⟨invalidModeMessage opts.compatibilityMode, ?_⟩
    have hv := validate_error_of_invalid opts.compatibilityMode h1 h2
    simp [NewWith, hv]

/-- Witness for validateCompatibilityMode_spec at the mode name "wat". -/
theorem validateCompatibilityMode_witness :
    ValidateCompatibilityMode "" = Except.ok CompatibilityMode.base ∧
    (∃ e, ValidateCompatibilityMode "wat" = Except.error e) ∧
    (∃ e, NewWith 0 (some optsWat) = Except.error e) := by
  have h := validateCompatibilityMode_spec "wat" 0 optsWat
  exact ⟨h.1, h.2.1.mpr ⟨by decide, by decide⟩, h.2.2.2 (by decide) (by decide)⟩

/-- C2 (confirmed; the cache is modelled from the spec, concurrency as the
linearization the spec's blocking semantics forces): over any sequence of
GetOrCreateShare requests on one cache, the factory for a name not yet cached
runs exactly once — by the first requester for that name — and every request
for that name receives the identical value that first factory call produced. -/
theorem getOrCreateShare_single_flight (cache : List (String × SharedValue))
    (pre post : List ShareRequest) (n : String) (f0 : Unit → SharedValue)
    (hnone : lookupShared cache n = none)
    (hpre : ∀ q ∈ pre, q.1 ≠ n) :
    (runRequests cache (pre ++ (n, f0) :: post)).2.2.count n = 1 ∧
    ∀ p ∈ (runRequests cache (pre ++ (n, f0) :: post)).1, p.1 = n → p.2 = f0 () :=
  single_flight_aux n f0 post pre cache hnone hpre

/-- Witness for getOrCreateShare_single_flight: two callers with different
factories request "s" on an empty cache; one factory run, both get the first
factory's array. -/
theorem getOrCreateShare_single_flight_witness :
    (runRequests [] reqsShared).2.2.count "s" = 1 ∧
    SharedValue.other 9 ≠ facW () ∧
    ∀ p ∈ (runRequests [] reqsShared).1, p.2 = facW () := by
  have h := getOrCreateShare_single_flight [] [] [("s", facW2)] "s" facW rfl
    (by intro q hq; cases hq)
  refine ⟨h.1, by decide, ?_⟩
  intro p hp
  have hfst : p.1 = "s" := by
    have : ∀ x ∈ (runRequests [] reqsShared).1, x.1 = "s" := by decide
    exact this p hp
  exact h.2 p hp hfst

/-- C10 (confirmed; init-env accessor and cache modelled from the spec):
XSharedArray returns an error without running the factory and without touching
the cache when the context has no init environment or the name is empty, and
returns the wrong-type error when the cached value under the derived key is
not a shared array. -/
theorem xSharedArray_error_paths (ctx : Context) (name : String)
    (factory : Unit → SharedValue) (cache : List (String × SharedValue)) :
    (GetInitEnv ctx = none →
      XSharedArray ctx name factory cache =
        (Except.error ("missing init environment"), cache, false)) ∧
    (GetInitEnv ctx ≠ none → name = "" →
      XSharedArray ctx name factory cache =
        (Except.error ("empty name provided to SharedArray's constructor"), cache, false)) ∧
    (∀ v, GetInitEnv ctx ≠ none → name ≠ "" →
      lookupShared cache (sharedArrayNameLead ++ name) = some v →
      (∀ arr, v ≠ SharedValue.sharedArray arr) →
      XSharedArray ctx name factory cache =
        (Except.error ("wrong type of shared object"), cache, false)) := by
  refine ⟨?_, ?_, ?_⟩
  · intro h
    simp [XSharedArray, h]
  · intro h1 h2
    cases he : GetInitEnv ctx with
    | none => exact absurd he h1
    | some env => simp [XSharedArray, he, h2]
  · intro v h1 h2 h3 h4
    cases he : GetInitEnv ctx with
    | none => exact absurd he h1
    | some env =>
      obtain ⟨i, hi⟩ : ∃ i, v = SharedValue.other i := by
        cases v with
        | sharedArray arr => exact absurd rfl (h4 arr)
        | other i => exact ⟨i, rfl⟩
      subst hi
      simp [XSharedArray, he, h2, GetOrCreateShare, h3]

/-- Witness for xSharedArray_error_paths on all three error paths. -/
theorem xSharedArray_error_paths_witness :
    XSharedArray [] "x" facW [] =
      (Except.error ("missing init environment"), [], false) ∧
    XSharedArray ctxEnv "" facW [] =
      (Except.error ("empty name provided to SharedArray's constructor"), [], false) ∧
    XSharedArray ctxEnv "s" facW cacheBad =
      (Except.error ("wrong type of shared object"), cacheBad, false) :=
  ⟨(xSharedArray_error_paths [] "x" facW []).1 rfl,
   (xSharedArray_error_paths ctxEnv "" facW []).2.1 (by decide) rfl,
   (xSharedArray_error_paths ctxEnv "s" facW cacheBad).2.2 (SharedValue.other 3)
     (by decide) (by decide) rfl (fun arr h => SharedValue.noConfusion h)⟩

/-- C3 (confirmed): for an exported method with an error-shaped second result,
the wrapper raises a script exception carrying the returned non-nil error and
produces no value; a nil error yields the converted first result. -/
theorem wrapped_error_throws (conv : ConvFn) (toValue : NativeResult → JSValue)
    (impl : List GoValue → List NativeResult) (r : Runtime) (m : MethodSig)
    (callArgs : List JSValue) (args : List GoValue) (s : String) (v : NativeResult)
    (herr : hasError m = true)
    (hargs : buildArgs conv r m callArgs = Except.ok args) :
    ((impl args).get? 1 = some (NativeResult.err s) →
      invokeWrapped conv toValue impl r m callArgs = Except.error s) ∧
    ((impl args).get? 1 = some NativeResult.nilErr →
      (impl args).get? 0 = some v →
      invokeWrapped conv toValue impl r m callArgs = Except.ok (toValue v)) := by
  constructor
  · intro h1
    have hlt : 1 < (impl args).length := by
      by_contra hc
      rw [List.get?_len_le (by omega)] at h1
      cases h1
    have hgetD : ((impl args).get? 1).getD NativeResult.nilErr = NativeResult.err s := by
      rw [h1]; rfl
    have hcond : hasError m = true ∧
        (((impl args).get? 1).getD NativeResult.nilErr).isNilErr = false := by
      refine ⟨herr, ?_⟩
      rw [hgetD]
      rfl
    simp only [invokeWrapped, hargs, wrapperReturn]
    rw [if_pos (show 0 < (impl args).length by omega), if_pos hcond, hgetD]
    rfl
  · intro h1 h2
    have hlt : 1 < (impl args).length := by
      by_contra hc
      rw [List.get?_len_le (by omega)] at h1
      cases h1
    have hgetD1 : ((impl args).get? 1).getD NativeResult.nilErr = NativeResult.nilErr := by
      rw [h1]; rfl
    have hgetD0 : ((impl args).get? 0).getD NativeResult.nilErr = v := by
      rw [h2]; rfl
    have hcond : ¬(hasError m = true ∧
        (((impl args).get? 1).getD NativeResult.nilErr).isNilErr = false) := by
      intro hcon
      rw [hgetD1] at hcon
      exact absurd hcon.2 (by decide)
    simp only [invokeWrapped, hargs, wrapperReturn]
    rw [if_pos (show 0 < (impl args).length by omega), if_neg hcond, hgetD0]

/-- Witness for wrapped_error_throws: a failing and a succeeding call of a
func() (int, error) method. -/
theorem wrapped_error_throws_witness :
    invokeWrapped conv0 toValue0 implBoom rt1 mErr [] = Except.error "boom" ∧
    invokeWrapped conv0 toValue0 implOk rt1 mErr [] =
      Except.ok (toValue0 (NativeResult.val 7)) :=
  ⟨(wrapped_error_throws conv0 toValue0 implBoom rt1 mErr [] [] "boom"
      NativeResult.nilErr (by decide) rfl).1 rfl,
   (wrapped_error_throws conv0 toValue0 implOk rt1 mErr [] [] ""
      (NativeResult.val 7) (by decide) rfl).2 rfl rfl⟩

/-- C7 (confirmed): in a wrapped method, a positional parameter whose supplied
script argument is missing or undefined is bound to the native zero value of
its declared type, except that a parameter of the engine's generic value type
receives the undefined script value itself, unconverted. -/
theorem undefined_arg_zero_value (conv : ConvFn) (r : Runtime) (m : MethodSig)
    (callArgs : List JSValue) (args : List GoValue) (i : Nat) (T : GoType)
    (hok : buildArgs conv r m callArgs = Except.ok args)
    (hT : m.params.get? i = some T)
    (hres : reservedOf m ≤ i)
    (hfc : T ≠ GoType.fnCallT)
    (hlast : ¬(m.variadic = true ∧ i = m.params.length - 1))
    (hpre : ∀ j Tp, j < i → m.params.get? j = some Tp → Tp ≠ GoType.fnCallT)
    (hund : Argument callArgs (i - reservedOf m) = JSValue.undefined) :
    args.get? i = some (GoValue.scalar
      (if T = GoType.jsValT then GoNative.jsUndef else GoNative.zero T)) := by
  have hlen : i < m.params.length := by
    by_contra hc
    rw [List.get?_len_le (by omega)] at hT
    cases hT
  have hget := buildLoop_get (mkEnv conv r m callArgs) m.params 0 args hok i T hT ?hpre2
  case hpre2 =>
    intro jp Tp hlt hgp
    refine ⟨hpre jp Tp hlt hgp, ?_⟩
    intro hcon
    have h2 := hcon.2
    simp only [mkEnv] at h2
    omega
  obtain ⟨w, hslot, hga⟩ := hget
  have hslotv : slotValue (mkEnv conv r m callArgs) T (0 + i) =
      Except.ok (GoValue.scalar
        (if T = GoType.jsValT then GoNative.jsUndef else GoNative.zero T)) := by
    rw [Nat.zero_add]
    simp only [slotValue, mkEnv]
    rw [if_neg (show ¬ i < reservedOf m by omega), if_neg hfc, if_neg hlast,
      if_pos hund]
  rw [hslotv] at hslot
  rw [← Except.ok.inj hslot] at hga
  exact hga

/-- Witness for undefined_arg_zero_value: calling func(ctx, n int, v goja.Value)
with no script arguments binds n to zero and v to undefined itself. -/
theorem undefined_arg_zero_value_witness :
    ([GoValue.ctxArg [], GoValue.scalar (GoNative.zero GoType.intT),
        GoValue.scalar GoNative.jsUndef] : List GoValue).get? 1 =
      some (GoValue.scalar (GoNative.zero GoType.intT)) := by
  have h := undefined_arg_zero_value conv0 rt1 mOpt []
    [GoValue.ctxArg [], GoValue.scalar (GoNative.zero GoType.intT),
      GoValue.scalar GoNative.jsUndef] 1 GoType.intT rfl rfl (by decide) (by decide)
    (by decide) ?hp rfl
  case hp =>
    intro j Tp hj hTp
    have hj0 : j = 0 := by omega
    subst hj0
    simp only [mOpt, List.get?] at hTp
    rw [show Tp = GoType.ctxT from (Option.some.inj hTp).symm]
    decide
  exact h

/-- C4 (confirmed): a wrapped variadic method called with k trailing script
arguments of convertible type binds its last parameter to a native slice of
length k whose elements are the converted arguments in order; with zero
trailing arguments it binds the zero (empty, length-0) slice. -/
theorem wrapped_variadic_collects (conv : ConvFn) (r : Runtime) (m : MethodSig)
    (E : GoType) (ps : List GoType) (k : Nat) (callArgs : List JSValue)
    (hconv : ∀ t v, ∃ w, conv t v = Except.ok w)
    (hvar : m.variadic = true)
    (hparams : m.params = ps ++ [GoType.sliceT E])
    (hmid : ∀ T, T ∈ ps → T ≠ GoType.fnCallT)
    (hlen : callArgs.length = (ps.length - reservedOf m) + k) :
    ∃ args ws, buildArgs conv r m callArgs = Except.ok args ∧
      List.Forall₂ (fun a w => conv E a = Except.ok w)
        (callArgs.drop (ps.length - reservedOf m)) ws ∧
      ws.length = k ∧
      args.get? ps.length =
        some (if k = 0 then GoValue.scalar (GoNative.zero (GoType.sliceT E))
              else GoValue.sliceArg (GoType.sliceT E) ws) := by
  have hres : reservedOf m ≤ ps.length := by
    rw [reservedOf]
    split
    · rename_i hw
      have h0 : m.params.get? 0 = some GoType.ctxT := of_decide_eq_true hw
      cases hps : ps with
      | nil =>
        rw [hparams, hps] at h0
        simp at h0
      | cons a l =>
        simp only [List.length_cons]
        omega
    · omega
  obtain ⟨args, hok⟩ := buildLoop_total (mkEnv conv r m callArgs) hconv m.params 0
  have hTlast : m.params.get? ps.length = some (GoType.sliceT E) := by
    rw [hparams]
    exact List.get?_concat_length ps _
  have hget := buildLoop_get (mkEnv conv r m callArgs) m.params 0 args hok ps.length
      (GoType.sliceT E) hTlast ?hpre
  case hpre =>
    intro jp Tp hlt hgp
    have hTp : Tp ∈ ps := by
      rw [hparams, List.get?_append hlt] at hgp
      exact List.get?_mem hgp
    refine ⟨hmid Tp hTp, ?_⟩
    intro hcon
    have h2 := hcon.2
    simp only [mkEnv, hparams, List.length_append, List.length_cons,
      List.length_nil] at h2
    omega
  obtain ⟨w, hslot, hga⟩ := hget
  have hlastidx : ps.length = m.params.length - 1 := by
    rw [hparams]
    simp
  by_cases hk : k = 0
  · have hvl0 : callArgs.length - (ps.length - reservedOf m) = 0 := by omega
    have hslotv : slotValue (mkEnv conv r m callArgs) (GoType.sliceT E) (0 + ps.length) =
        Except.ok (GoValue.scalar (GoNative.zero (GoType.sliceT E))) := by
      rw [Nat.zero_add]
      simp only [slotValue, mkEnv]
      rw [if_neg (show ¬ ps.length < reservedOf m by omega),
        if_neg (show ¬ GoType.sliceT E = GoType.fnCallT by simp),
        if_pos ⟨hvar, hlastidx⟩, if_pos hvl0]
    rw [hslotv] at hslot
    refine ⟨args, [], hok, ?_, by simp [hk], ?_⟩
    · have hdrop : callArgs.drop (ps.length - reservedOf m) = [] :=
        List.drop_eq_nil_of_le (by omega)
      rw [hdrop]
      exact List.Forall₂.nil
    · rw [← Except.ok.inj hslot] at hga
      rw [if_pos hk]
      exact hga
  · obtain ⟨ws, hcs, hwl, hfa⟩ :=
      convSeq_total conv E hconv (callArgs.drop (ps.length - reservedOf m))
    have hvl0 : ¬ (callArgs.length - (ps.length - reservedOf m) = 0) := by omega
    have hslotv : slotValue (mkEnv conv r m callArgs) (GoType.sliceT E) (0 + ps.length) =
        Except.ok (GoValue.sliceArg (GoType.sliceT E) ws) := by
      rw [Nat.zero_add]
      simp only [slotValue, mkEnv, GoType.elemType]
      rw [if_neg (show ¬ ps.length < reservedOf m by omega),
        if_neg (show ¬ GoType.sliceT E = GoType.fnCallT by simp),
        if_pos ⟨hvar, hlastidx⟩, if_neg hvl0, hcs]
    rw [hslotv] at hslot
    refine ⟨args, ws, hok, hfa, ?_, ?_⟩
    · rw [hwl, List.length_drop]
      omega
    · rw [← Except.ok.inj hslot] at hga
      rw [if_neg hk]
      exact hga

/-- Witness for wrapped_variadic_collects: func(ctx, xs ...int) (int, error)
called with two script arguments collects a length-2 slice. -/
theorem wrapped_variadic_collects_witness :
    ∃ args ws, buildArgs conv0 rt1 mVar [JSValue.num 1, JSValue.num 2] = Except.ok args ∧
      List.Forall₂ (fun a w => conv0 GoType.intT a = Except.ok w)
        ([JSValue.num 1, JSValue.num 2].drop
          ([GoType.ctxT].length - reservedOf mVar)) ws ∧
      ws.length = 2 ∧
      args.get? [GoType.ctxT].length =
        some (if 2 = 0 then GoValue.scalar (GoNative.zero (GoType.sliceT GoType.intT))
              else GoValue.sliceArg (GoType.sliceT GoType.intT) ws) :=
  wrapped_variadic_collects conv0 rt1 mVar GoType.intT [GoType.ctxT] 2
    [JSValue.num 1, JSValue.num 2] (fun t v => ⟨GoNative.conv t v, rfl⟩) rfl rfl
    (by intro T hT; simp only [List.mem_singleton] at hT; rw [hT]; decide)
    (by decide)

/-- C1 counterexample (claim corrected): running under a context C that
already carries a runtime attachment (to runtime 0), a context-consuming
method on runtime 1 is passed a context that maps the runtime-attachment key
to runtime 1 while C carries runtime 0 at that same key — so the passed
context does not agree with C on every key/value pair C carries. -/
theorem runString_ctx_injection_counterexample :
    buildArgs conv0 (rt1.runString ctxR0) mCtx [] =
      Except.ok [GoValue.ctxArg (WithRuntime ctxR0 1)] ∧
    ctxValue ctxR0 CtxKey.runtimeKey = some (CtxVal.rt 0) ∧
    ctxValue (WithRuntime ctxR0 1) CtxKey.runtimeKey = some (CtxVal.rt 1) ∧
    CtxVal.rt 0 ≠ CtxVal.rt 1 :=
  ⟨rfl, rfl, rfl, by decide⟩

/-- C1 (corrected): a bound context-consuming method invoked while the runtime
evaluates under context C receives WithRuntime(C, r) as its first argument — a
context agreeing with C on every carried key EXCEPT the internal
runtime-attachment key, which is overwritten with the evaluating runtime. -/
theorem runString_ctx_injection_amended (r : Runtime) (C : Context) (conv : ConvFn)
    (m : MethodSig) (callArgs : List JSValue) (args : List GoValue)
    (hwc : wantsContext m = true)
    (hok : buildArgs conv (r.runString C) m callArgs = Except.ok args) :
    args.get? 0 = some (GoValue.ctxArg (WithRuntime C r.id)) ∧
    ∀ key, key ≠ CtxKey.runtimeKey →
      ctxValue (WithRuntime C r.id) key = ctxValue C key := by
  constructor
  · have h0 : m.params.get? 0 = some GoType.ctxT := of_decide_eq_true hwc
    obtain ⟨T0, rest, hps⟩ : ∃ T0 rest, m.params = T0 :: rest := by
      cases hp : m.params with
      | nil => rw [hp] at h0; cases h0
      | cons a l => exact ⟨a, l, rfl⟩
    have hres1 : reservedOf m = 1 := by simp [reservedOf, hwc]
    rw [buildArgs, hps, buildLoop,
      if_pos (show 0 < (mkEnv conv (r.runString C) m callArgs).reserved by
        simp [mkEnv, hres1])] at hok
    cases hrec : buildLoop (mkEnv conv (r.runString C) m callArgs) rest 1 with
    | error e => rw [hrec] at hok; cases hok
    | ok tail =>
      rw [hrec] at hok
      injection hok with hok
      rw [← hok]
      simp [mkEnv, Runtime.runString]
  · intro key hk
    simp [WithRuntime, WithValue, ctxValue, hk]

/-- Witness for runString_ctx_injection_amended: under the context carrying
only the user pair a=b, the injected context is WithRuntime(C, 1) and agrees
with C on the user key. -/
theorem runString_ctx_injection_witness :
    ([GoValue.ctxArg (WithRuntime ctxAB 1)] : List GoValue).get? 0 =
      some (GoValue.ctxArg (WithRuntime ctxAB 1)) ∧
    ctxValue (WithRuntime ctxAB 1) (CtxKey.userKey "a") =
      ctxValue ctxAB (CtxKey.userKey "a") := by
  have h := runString_ctx_injection_amended rt1 ctxAB conv0 mCtx []
    [GoValue.ctxArg (WithRuntime ctxAB 1)] (by decide) rfl
  exact ⟨h.1, h.2 (CtxKey.userKey "a") (by decide)⟩

end Gojs
